import Mathlib

/-!
# snake_server: hierarchical timing wheel and Lua call profiler

Shallow embedding of

* `src/clib/timingwheel/twheel.h` : the constants and the data layout of the
  timing wheel (`struct TimeNode`, `struct TimeList`, `struct TimeWheel`);
  the bodies of `timewheel_create`, `timewheel_add_time` and
  `timewheel_update` are only declared there, so they are modelled from the
  design document (sections 4.1 to 4.6);
* `src/skynet/lualib-src/lua-measure.c` : `_comp_cost`, `diff`, `coupdate`,
  `on_enter_func` and `on_leave_func`.

Machine integers are natural numbers or integers with explicit reduction
modulo `2^32` or `2^64`.
-/

namespace TWheel

/-! ## Constants of `twheel.h` -/

/-- Header constant `#define TIME_NEAR_SHIFT 8` -/
def TIME_NEAR_SHIFT : Nat := 8

/-- Header constant `#define TIME_NEAR (1 << TIME_NEAR_SHIFT)` -/
def TIME_NEAR : Nat := 1 <<< TIME_NEAR_SHIFT

/-- Header constant `#define TIME_NEAR_MASK (TIME_NEAR - 1)` -/
def TIME_NEAR_MASK : Nat := TIME_NEAR - 1

/-- Header constant `#define TIME_FAR_SHIFT 6` -/
def TIME_FAR_SHIFT : Nat := 6

/-- Header constant `#define TIME_FAR (1 << TIME_FAR_SHIFT)` -/
def TIME_FAR : Nat := 1 <<< TIME_FAR_SHIFT

/-- Header constant `#define TIME_FAR_MASK (TIME_FAR - 1)` -/
def TIME_FAR_MASK : Nat := TIME_FAR - 1

/-- Number of far levels: the first dimension of `far[4][TIME_FAR]`. -/
def FAR_LEVELS : Nat := 4

/-- Range of a `uint32_t`. -/
def U32 : Nat := 2 ^ 32

/-- Offset range of one wheel level, as the data model describes it: range `0`
is the near wheel `[0, TIME_NEAR)`, range `i + 1` is far level `i`,
`[TIME_NEAR * TIME_FAR^i, TIME_NEAR * TIME_FAR^(i+1))`. -/
def in_range (k x : Nat) : Prop :=
  match k with
  | 0 => x < TIME_NEAR
  | i + 1 => TIME_NEAR * TIME_FAR ^ i ≤ x ∧ x < TIME_NEAR * TIME_FAR ^ (i + 1)

instance (k x : Nat) : Decidable (in_range k x) := by
  cases k <;> unfold in_range <;> infer_instance

/-! ## Data model of `twheel.h` -/

/-- Source type `struct TimeNode`: absolute expiry tick (`uint32_t time`) and the opaque
`uint64_t handle`; the `next` pointer is the list structure of `TimeList`. -/
structure TimeNode where
  time : Nat
  handle : Nat
deriving DecidableEq, Repr

/-- Source type `struct TimeList`: a sentinel head and a tail pointer, that is a FIFO
queue of nodes, oldest first. -/
abbrev TimeList := List TimeNode

/-- Source type `struct TimeWheel` without its spin lock: `curr_time`, `start_time`,
`near[TIME_NEAR]`, `far[4][TIME_FAR]` and `overflow`. The arrays are maps
from the index to the bucket; only indices below the array sizes are used. -/
structure TimeWheel where
  curr_time : Nat
  start_time : Nat
  near : Nat → TimeList
  far : Nat → Nat → TimeList
  overflow : TimeList

/-- A place in the wheel: `near[i]`, `far[lvl][i]` or `overflow`. -/
inductive Slot where
  | near (i : Nat)
  | far (lvl : Nat) (i : Nat)
  | overflow
deriving DecidableEq, Repr

/-- The bucket stored at a slot. -/
def bucket (TW : TimeWheel) : Slot → TimeList
  | Slot.near i => TW.near i
  | Slot.far l i => TW.far l i
  | Slot.overflow => TW.overflow

/-- Modelled from the spec: the level search of section 4.2, "for level `i` in
0..3, let `span_i = 256 * 64^i`; if `offset < span_i * 64`", written with the
constants of the header; the classification function is not in `twheel.h`. -/
def far_level (offset : Nat) : Option Nat :=
  (List.range FAR_LEVELS).find? (fun i => offset < TIME_NEAR * TIME_FAR ^ i * TIME_FAR)

/-- Modelled from the spec: classification (section 4.2) of a node with
absolute tick `expiry` while the wheel is at `curr`; the function is not in
`twheel.h`. `offset` is the unsigned wraparound subtraction. -/
def classify (expiry curr : Nat) : Slot :=
  let offset := (expiry + U32 - curr) % U32
  if offset < TIME_NEAR then
    Slot.near (expiry &&& TIME_NEAR_MASK)
  else
    match far_level offset with
    | some i =>
        Slot.far i ((expiry >>> (TIME_NEAR_SHIFT + i * TIME_FAR_SHIFT)) &&& TIME_FAR_MASK)
    | none => Slot.overflow

/-- The nodes of bucket `s` whose handle satisfies `p`, in bucket order. -/
def view (p : Nat → Bool) (TW : TimeWheel) (s : Slot) : TimeList :=
  (bucket TW s).filter (fun n => p n.handle)

/-- The group `p` has exactly the chain `chain`, all of it in slot `s`. -/
def Held (p : Nat → Bool) (TW : TimeWheel) (s : Slot) (chain : TimeList) : Prop :=
  ∀ s1, view p TW s1 = if s1 = s then chain else []

/-- No node of the wheel has a handle in the group `p`. -/
def Absent (p : Nat → Bool) (TW : TimeWheel) : Prop :=
  ∀ s, view p TW s = []

/-- Interleaving of two lists: `Weave l m r` says that `r` consists of the
elements of `l` and of `m`, each list in its own order. -/
inductive Weave {α : Type} : List α → List α → List α → Prop where
  | nil : Weave [] [] []
  | left (x : α) {l m r : List α} : Weave l m r → Weave (x :: l) m (x :: r)
  | right (x : α) {l m r : List α} : Weave l m r → Weave l (x :: m) (x :: r)

end TWheel

namespace Measure

/-! ## `lua-measure.c` -/

/-- Source constant `#define WASTE_MS_LIMIT 200` -/
def WASTE_MS_LIMIT : Nat := 200

/-- Source constant `#define WASTE_MAX_LEN 10000` -/
def WASTE_MAX_LEN : Nat := 10000

/-- Source constant `#define NOTE_STAY_MS_LIMIT 180000` -/
def NOTE_STAY_MS_LIMIT : Nat := 180000

/-- Range of a `uint64_t`. -/
def U64 : Nat := 2 ^ 64

/-- Subtraction of `uint64_t` values: `a - b` modulo `2^64`. -/
def u64_sub (a b : Nat) : Nat := (a % U64 + U64 - b % U64) % U64

/-- Addition of `uint64_t` values: `a + b` modulo `2^64`. -/
def u64_add (a b : Nat) : Nat := (a + b) % U64

/-- Conversion of an integer value to a 32-bit `int` by truncation to the low
32 bits (two's complement). -/
def to_int (x : Int) : Int := (x + 2 ^ 31) % 2 ^ 32 - 2 ^ 31

/-- Source type `struct TimeCostInfo { const char* key; uint64_t time; int cnt; }` -/
structure TimeCostInfo where
  key : String
  time : Nat
  cnt : Int
deriving DecidableEq, Repr

/-- Source function `_comp_cost`, the comparator handed to `qsort` by `lprint`:
`diff_time = cb->time - ca->time` in `uint64_t`; when it is not zero the
function returns it converted to `int`, otherwise `cb->cnt < ca->cnt`. -/
def _comp_cost (a b : TimeCostInfo) : Int :=
  let diff_time := u64_sub b.time a.time
  if diff_time ≠ 0 then to_int diff_time
  else if b.cnt < a.cnt then 1 else 0

/-- Source function `diff(last, now)`: `(now > last) ? (now - last) : 0`. -/
def diff (last now : Nat) : Nat := if now > last then now - last else 0

/-- Entry of `MEASURE_CO_MAP` for one coroutine: fields `TOTAL_TIME`,
`TIMESTAMP`, `DEBUG_TIME`. -/
structure CoInfo where
  total_time : Nat
  timestamp : Nat
  debug_time : Int
deriving DecidableEq, Repr

/-- Entry of `MEASURE_NOTE_MAP[thread][callname]`: fields `TIMESTAMP` and
`STACK_COUNT`. -/
structure NoteInfo where
  timestamp : Nat
  stack_count : Int
deriving DecidableEq, Repr

/-- Entry of `MEASURE_RESULT_MAP[callname]`: fields `TOTAL_COUNT` and
`TOTAL_TIME`. -/
structure ResultInfo where
  total_count : Int
  total_time : Nat
deriving DecidableEq, Repr

/-- Entry of `MEASURE_WASTE_LIST`: fields `TIMESTAMP`, `CALLNAME`,
`SINGLE_TIME`. -/
structure WasteInfo where
  timestamp : Nat
  callname : String
  single_time : Nat
deriving DecidableEq, Repr

/-- The four tables the module keeps in the Lua registry. Coroutines are
identified by a number; a missing key is `none` (Lua `nil`). -/
structure Registry where
  co_map : Nat → Option CoInfo
  note_map : Nat → Option (String → Option NoteInfo)
  result_map : String → Option ResultInfo
  waste_list : List WasteInfo

/-- The registry as `luaopen_measure` leaves it: every table empty. -/
def luaopen_measure : Registry :=
  { co_map := fun _ => none, note_map := fun _ => none,
    result_map := fun _ => none, waste_list := [] }

/-- Source function `coupdate(L, stamp)`: creates the coroutine entry on first use and returns
`0`, otherwise adds `stamp - timestamp` (in `uint64_t`) to `TOTAL_TIME`,
stores the new stamp and returns the new total. -/
def coupdate (R : Registry) (L : Nat) (stamp : Nat) : Nat × Registry :=
  match R.co_map L with
  | none =>
      (0, { R with co_map := fun l =>
              if l = L then some { total_time := 0, timestamp := stamp, debug_time := -1 }
              else R.co_map l })
  | some e =>
      let ret_time := u64_add e.total_time (u64_sub stamp e.timestamp)
      (ret_time, { R with co_map := fun l =>
              if l = L then some { e with total_time := ret_time, timestamp := stamp }
              else R.co_map l })

/-- Write `MEASURE_NOTE_MAP[L][callname]`. -/
def set_note (R : Registry) (L : Nat) (callname : String) (v : Option NoteInfo) : Registry :=
  { R with note_map := fun l =>
      if l = L then
        some (fun c => if c = callname then v else
          match R.note_map L with
          | none => none
          | some t => t c)
      else R.note_map l }

/-- Source function `on_enter_func(L, callname)`; `sts` is the value `timestamp()` returns. -/
def on_enter_func (R : Registry) (L : Nat) (callname : String) (sts : Nat) : Registry :=
  let r := coupdate R L sts
  let ts := r.1
  let R1 := r.2
  match R1.note_map L with
  | none => set_note R1 L callname (some { timestamp := ts, stack_count := 1 })
  | some t =>
      match t callname with
      | none => set_note R1 L callname (some { timestamp := ts, stack_count := 1 })
      | some e =>
          if u64_sub ts e.timestamp ≥ NOTE_STAY_MS_LIMIT then
            set_note R1 L callname (some { timestamp := ts, stack_count := 1 })
          else
            set_note R1 L callname
              (some { e with stack_count := to_int e.stack_count + 1 })

/-- The write into `MEASURE_WASTE_LIST` at index `len % WASTE_MAX_LEN + 1`
(1-based), `len` being the length of the list. -/
def waste_put (l : List WasteInfo) (w : WasteInfo) : List WasteInfo :=
  let windex := l.length % WASTE_MAX_LEN + 1
  if windex = l.length + 1 then l ++ [w] else l.set (windex - 1) w

/-- Source function `on_leave_func(L, callname)`; `sts` is the value `timestamp()` returns. -/
def on_leave_func (R : Registry) (L : Nat) (callname : String) (sts : Nat) : Registry :=
  let r := coupdate R L sts
  let ts := r.1
  let R1 := r.2
  match R1.note_map L with
  | none => R1
  | some t =>
      match t callname with
      | none => R1
      | some e =>
          let stack_count := to_int e.stack_count - 1
          let R2 := set_note R1 L callname (some { e with stack_count := stack_count })
          if stack_count ≤ 0 then
            let timediff := diff e.timestamp ts
            let res : ResultInfo :=
              match R2.result_map callname with
              | none => { total_count := 1, total_time := timediff }
              | some x =>
                  { total_count := to_int x.total_count + 1,
                    total_time := u64_add x.total_time timediff }
            let R3 := { R2 with result_map := fun c =>
                          if c = callname then some res else R2.result_map c }
            let w : WasteInfo := { timestamp := sts, callname := callname, single_time := timediff }
            let R4 :=
              if timediff ≥ WASTE_MS_LIMIT then
                { R3 with waste_list := waste_put R3.waste_list w }
              else R3
            set_note R4 L callname none
          else R2

/-- A hook event for one call name on one coroutine, with the value of
`timestamp()` at the event. -/
inductive Event where
  | enter (sts : Nat)
  | leave (sts : Nat)
deriving DecidableEq, Repr

/-- Apply one event. -/
def step (L : Nat) (callname : String) (R : Registry) : Event → Registry
  | Event.enter sts => on_enter_func R L callname sts
  | Event.leave sts => on_leave_func R L callname sts

/-- Apply a sequence of events. -/
def run (L : Nat) (callname : String) (R : Registry) (evs : List Event) : Registry :=
  evs.foldl (step L callname) R

/-- The `TOTAL_COUNT` recorded for a call name, `0` when there is no entry. -/
def total_count (R : Registry) (callname : String) : Int :=
  match R.result_map callname with
  | none => 0
  | some x => x.total_count

/-- Number of `on_enter_func` events of a sequence. -/
def enters : List Event → Nat
  | [] => 0
  | Event.enter _ :: es => enters es + 1
  | Event.leave _ :: es => enters es

/-- Number of outermost calls: the `on_enter_func` events met at nesting depth
`0`, `d` being the depth before the sequence. -/
def outermost : Nat → List Event → Nat
  | _, [] => 0
  | 0, Event.enter _ :: es => outermost 1 es + 1
  | d + 1, Event.enter _ :: es => outermost (d + 2) es
  | d, Event.leave _ :: es => outermost (d - 1) es

/-- Every leave closes an open call and every call is closed at the end; `d`
is the nesting depth before the sequence. -/
def balanced : Nat → List Event → Prop
  | d, [] => d = 0
  | d, Event.enter _ :: es => balanced (d + 1) es
  | 0, Event.leave _ :: _ => False
  | d + 1, Event.leave _ :: es => balanced d es

/-- Time stamp of an event. -/
def Event.sts : Event → Nat
  | Event.enter s => s
  | Event.leave s => s

/-- The time stamps of the sequence do not decrease, start at `prev` or later
and stay below `hi`. -/
def stamps_ok (prev hi : Nat) : List Event → Prop
  | [] => True
  | e :: es => prev ≤ e.sts ∧ e.sts < hi ∧ stamps_ok e.sts hi es

/-- The entry `MEASURE_NOTE_MAP[L][callname]`, `none` when the coroutine or
the call name has no entry. -/
def note_entry (R : Registry) (L : Nat) (callname : String) : Option NoteInfo :=
  match R.note_map L with
  | none => none
  | some t => t callname

/-- Number of `on_leave_func` events that close an outermost call, `d` being
the nesting depth before the sequence. -/
def completions : Nat → List Event → Nat
  | _, [] => 0
  | d, Event.enter _ :: es => completions (d + 1) es
  | 0, Event.leave _ :: es => completions 0 es
  | 1, Event.leave _ :: es => completions 0 es + 1
  | d + 2, Event.leave _ :: es => completions (d + 1) es

/-- State of the tables while `d` calls of the call name are open on the
coroutine: no note entry at depth `0`; otherwise the note entry holds the
depth and the time `t0` of the outermost call, and the coroutine entry, last
stamped at `prev`, has run for `prev - s0` since a stamp `s0 ≥ lo`. -/
def NoteInv (R : Registry) (L : Nat) (callname : String) (d prev lo : Nat) : Prop :=
  match d with
  | 0 => note_entry R L callname = none
  | d + 1 =>
      ∃ t0 e s0, note_entry R L callname = some { timestamp := t0, stack_count := (d : Int) + 1 } ∧
        R.co_map L = some e ∧ e.timestamp = prev ∧ lo ≤ s0 ∧ s0 ≤ prev ∧
        u64_sub e.total_time t0 = prev - s0

end Measure

/-! # Theorems -/

namespace TWheel

theorem TIME_NEAR_eq : TIME_NEAR = 256 := by decide

theorem TIME_FAR_eq : TIME_FAR = 64 := by decide

theorem TIME_NEAR_MASK_eq : TIME_NEAR_MASK = 2 ^ 8 - 1 := by decide

theorem TIME_FAR_MASK_eq : TIME_FAR_MASK = 2 ^ 6 - 1 := by decide

theorem near_index_eq (x : Nat) : x &&& TIME_NEAR_MASK = x % 256 := by
  rw [TIME_NEAR_MASK_eq, Nat.and_pow_two_sub_one_eq_mod]

theorem far_index_eq (x i : Nat) :
    (x >>> (TIME_NEAR_SHIFT + i * TIME_FAR_SHIFT)) &&& TIME_FAR_MASK
      = x / 2 ^ (8 + i * 6) % 64 := by
  rw [TIME_FAR_MASK_eq, Nat.and_pow_two_sub_one_eq_mod, Nat.shiftRight_eq_div_pow]
  rfl

theorem far_level_cases (o : Nat) :
    far_level o =
      if o < 16384 then some 0
      else if o < 1048576 then some 1
      else if o < 67108864 then some 2
      else if o < 4294967296 then some 3
      else none := by
  have h0 : (TIME_NEAR * TIME_FAR ^ 0 * TIME_FAR) = 16384 := by decide
  have h1 : (TIME_NEAR * TIME_FAR ^ 1 * TIME_FAR) = 1048576 := by decide
  have h2 : (TIME_NEAR * TIME_FAR ^ 2 * TIME_FAR) = 67108864 := by decide
  have h3 : (TIME_NEAR * TIME_FAR ^ 3 * TIME_FAR) = 4294967296 := by decide
  have hr : List.range FAR_LEVELS = [0, 1, 2, 3] := by decide
  unfold far_level
  rw [hr]
  simp only [List.find?, h0, h1, h2, h3]
  by_cases c0 : o < 16384
  · simp [c0]
  · by_cases c1 : o < 1048576
    · simp [c0, c1]
    · by_cases c2 : o < 67108864
      · simp [c0, c1, c2]
      · by_cases c3 : o < 4294967296
        · simp [c0, c1, c2, c3]
        · simp [c0, c1, c2, c3]

/-- The slot a node with offset `o` and expiry `e` is classified into, in
arithmetic form. -/
theorem classify_cases (e c : Nat) :
    classify e c =
      if (e + 4294967296 - c) % 4294967296 < 256 then Slot.near (e % 256)
      else if (e + 4294967296 - c) % 4294967296 < 16384 then Slot.far 0 (e / 2 ^ 8 % 64)
      else if (e + 4294967296 - c) % 4294967296 < 1048576 then Slot.far 1 (e / 2 ^ 14 % 64)
      else if (e + 4294967296 - c) % 4294967296 < 67108864 then Slot.far 2 (e / 2 ^ 20 % 64)
      else Slot.far 3 (e / 2 ^ 26 % 64) := by
  have hU : U32 = 4294967296 := by decide
  have hlt : (e + 4294967296 - c) % 4294967296 < 4294967296 := Nat.mod_lt _ (by norm_num)
  unfold classify
  simp only [hU, TIME_NEAR_eq, near_index_eq, far_level_cases, far_index_eq]
  by_cases c0 : (e + 4294967296 - c) % 4294967296 < 256
  · simp [c0]
  · by_cases c1 : (e + 4294967296 - c) % 4294967296 < 16384
    · simp [c0, c1]
    · by_cases c2 : (e + 4294967296 - c) % 4294967296 < 1048576
      · simp [c0, c1, c2]
      · by_cases c3 : (e + 4294967296 - c) % 4294967296 < 67108864
        · simp [c0, c1, c2, c3]
        · simp [c0, c1, c2, c3, hlt]

/-- C4: with the constants of the header (`TIME_NEAR = 256`, `TIME_FAR = 64`,
four far levels) the shifts add up to 32 bits, `TIME_NEAR * TIME_FAR^4 = 2^32`,
an offset lies in one of the five ranges (near, `far[0]` .. `far[3]`) exactly
when it is below `2^32`, and no offset lies in two different ranges. -/
theorem offset_ranges_partition :
    TIME_NEAR = 256 ∧ TIME_FAR = 64 ∧
    TIME_NEAR_SHIFT + FAR_LEVELS * TIME_FAR_SHIFT = 32 ∧
    TIME_NEAR * TIME_FAR ^ FAR_LEVELS = 2 ^ 32 ∧
    (∀ x, x < 2 ^ 32 ↔ ∃ k, k ≤ FAR_LEVELS ∧ in_range k x) ∧
    (∀ x k1 k2, k1 ≤ FAR_LEVELS → k2 ≤ FAR_LEVELS →
      in_range k1 x → in_range k2 x → k1 = k2) := by
  have e0 : ∀ x, in_range 0 x ↔ x < 256 := fun x => by simp [in_range, TIME_NEAR_eq]
  have e1 : ∀ x, in_range 1 x ↔ 256 ≤ x ∧ x < 16384 := fun x => by
    simp [in_range, TIME_NEAR_eq, TIME_FAR_eq]
  have e2 : ∀ x, in_range 2 x ↔ 16384 ≤ x ∧ x < 1048576 := fun x => by
    simp [in_range, TIME_NEAR_eq, TIME_FAR_eq]
  have e3 : ∀ x, in_range 3 x ↔ 1048576 ≤ x ∧ x < 67108864 := fun x => by
    simp [in_range, TIME_NEAR_eq, TIME_FAR_eq]
  have e4 : ∀ x, in_range 4 x ↔ 67108864 ≤ x ∧ x < 4294967296 := fun x => by
    simp [in_range, TIME_NEAR_eq, TIME_FAR_eq]
  have hL : FAR_LEVELS = 4 := rfl
  refine ⟨by decide, by decide, by decide, by decide, ?_, ?_⟩
  · intro x
    constructor
    · intro hx
      by_cases c0 : x < 256
      · exact ⟨0, by omega, (e0 x).2 c0⟩
      · by_cases c1 : x < 16384
        · exact ⟨1, by omega, (e1 x).2 ⟨by omega, c1⟩⟩
        · by_cases c2 : x < 1048576
          · exact ⟨2, by omega, (e2 x).2 ⟨by omega, c2⟩⟩
          · by_cases c3 : x < 67108864
            · exact ⟨3, by omega, (e3 x).2 ⟨by omega, c3⟩⟩
            · exact ⟨4, by omega, (e4 x).2 ⟨by omega, by omega⟩⟩
    · rintro ⟨k, hk, hin⟩
      rw [hL] at hk
      interval_cases k
      · have := (e0 x).1 hin; omega
      · have := (e1 x).1 hin; omega
      · have := (e2 x).1 hin; omega
      · have := (e3 x).1 hin; omega
      · have := (e4 x).1 hin; omega
  · intro x k1 k2 h1 h2 r1 r2
    rw [hL] at h1 h2
    interval_cases k1 <;> interval_cases k2 <;>
      simp only [e0, e1, e2, e3, e4] at r1 r2 <;> omega

/-- C7: for every expiry and current tick, the classification of section 4.2
selects `near[expiry & TIME_NEAR_MASK]` with an index below `TIME_NEAR` when
the offset is below `TIME_NEAR`, and otherwise
`far[i][(expiry >> (TIME_NEAR_SHIFT + i * TIME_FAR_SHIFT)) & TIME_FAR_MASK]`
for the level `i < 4` whose range holds the offset, with an index below
`TIME_FAR`; the overflow bucket is never selected. -/
theorem classify_in_bounds (expiry curr : Nat) :
    ((expiry + U32 - curr) % U32 < TIME_NEAR →
        classify expiry curr = Slot.near (expiry &&& TIME_NEAR_MASK) ∧
        expiry &&& TIME_NEAR_MASK < TIME_NEAR) ∧
    (TIME_NEAR ≤ (expiry + U32 - curr) % U32 →
        ∃ i, i < FAR_LEVELS ∧
          TIME_NEAR * TIME_FAR ^ i ≤ (expiry + U32 - curr) % U32 ∧
          (expiry + U32 - curr) % U32 < TIME_NEAR * TIME_FAR ^ (i + 1) ∧
          classify expiry curr =
            Slot.far i ((expiry >>> (TIME_NEAR_SHIFT + i * TIME_FAR_SHIFT)) &&& TIME_FAR_MASK) ∧
          (expiry >>> (TIME_NEAR_SHIFT + i * TIME_FAR_SHIFT)) &&& TIME_FAR_MASK < TIME_FAR) ∧
    classify expiry curr ≠ Slot.overflow := by
  have hU : U32 = 4294967296 := by decide
  have hL : FAR_LEVELS = 4 := rfl
  have hlt : (expiry + 4294967296 - curr) % 4294967296 < 4294967296 :=
    Nat.mod_lt _ (by norm_num)
  have hc := classify_cases expiry curr
  rw [hU, TIME_NEAR_eq, TIME_FAR_eq, hL]
  refine ⟨?_, ?_, ?_⟩
  · intro h
    rw [hc, if_pos h, near_index_eq]
    exact ⟨rfl, Nat.mod_lt _ (by norm_num)⟩
  · intro h
    have h0 : ¬ (expiry + 4294967296 - curr) % 4294967296 < 256 := by omega
    rw [if_neg h0] at hc
    by_cases c1 : (expiry + 4294967296 - curr) % 4294967296 < 16384
    · rw [if_pos c1] at hc
      refine ⟨0, by omega, by omega, by omega, ?_, ?_⟩
      · rw [hc, far_index_eq]
      · rw [far_index_eq]; exact Nat.mod_lt _ (by norm_num)
    · rw [if_neg c1] at hc
      by_cases c2 : (expiry + 4294967296 - curr) % 4294967296 < 1048576
      · rw [if_pos c2] at hc
        refine ⟨1, by omega, by omega, by omega, ?_, ?_⟩
        · rw [hc, far_index_eq]
        · rw [far_index_eq]; exact Nat.mod_lt _ (by norm_num)
      · rw [if_neg c2] at hc
        by_cases c3 : (expiry + 4294967296 - curr) % 4294967296 < 67108864
        · rw [if_pos c3] at hc
          refine ⟨2, by omega, by omega, by omega, ?_, ?_⟩
          · rw [hc, far_index_eq]
          · rw [far_index_eq]; exact Nat.mod_lt _ (by norm_num)
        · rw [if_neg c3] at hc
          refine ⟨3, by omega, by omega, by omega, ?_, ?_⟩
          · rw [hc, far_index_eq]
          · rw [far_index_eq]; exact Nat.mod_lt _ (by norm_num)
  · rw [hc]
    split_ifs <;> simp

/-! ## Buckets -/

theorem absent_iff_held_nil (p : Nat → Bool) (TW : TimeWheel) (s : Slot) :
    Absent p TW ↔ Held p TW s [] := by
  constructor
  · intro h s1
    rw [h s1]
    split_ifs <;> rfl
  · intro h s1
    rw [h s1]
    split_ifs <;> rfl

/-! ## Sequences of `timewheel_update` calls -/

theorem weave_nil_mid {α : Type} (l m r : List α) (h : Weave l m r) (hm : m = []) : r = l := by
  induction h with
  | nil => rfl
  | left x _ ih => rw [ih hm]
  | right x _ _ => exact absurd hm (List.cons_ne_nil _ _)

theorem weave_of_eq {α : Type} (l m r l1 m1 r1 : List α) (h : Weave l m r) (hl : l1 = l)
    (hm : m1 = m) (hr : r1 = r) : Weave l1 m1 r1 := by
  subst hl hm hr
  exact h

/-! ## The wheel operations on a wheel with added nodes -/

end TWheel

namespace Measure

/-! ## `_comp_cost` -/

/-- Comparing a record with itself gives `0`. -/
theorem comp_cost_self (a : TimeCostInfo) : _comp_cost a a = 0 := by
  have h : u64_sub a.time a.time = 0 := by
    have hU : U64 = 18446744073709551616 := by decide
    unfold u64_sub
    rw [hU]
    omega
  simp [_comp_cost, h]

/-- For times that differ by less than `2^31` the sign of `_comp_cost` orders
the records by descending time. -/
theorem comp_cost_small_diff (a b : TimeCostInfo) (ha : a.time < U64) (hb : b.time < U64) :
    (b.time < a.time → a.time - b.time ≤ 2 ^ 31 → _comp_cost a b < 0) ∧
    (a.time < b.time → b.time - a.time < 2 ^ 31 → 0 < _comp_cost a b) := by
  have hU : U64 = 18446744073709551616 := by decide
  rw [hU] at ha hb
  constructor
  · intro h1 h2
    have hd : u64_sub b.time a.time = 18446744073709551616 - (a.time - b.time) := by
      unfold u64_sub; rw [hU]; omega
    have hne : 18446744073709551616 - (a.time - b.time) ≠ 0 := by omega
    simp only [_comp_cost, hd, hne, ne_eq, not_false_eq_true, if_true, to_int]
    norm_num at h2 ⊢
    omega
  · intro h1 h2
    have hd : u64_sub b.time a.time = b.time - a.time := by
      unfold u64_sub; rw [hU]; omega
    have hne : b.time - a.time ≠ 0 := by omega
    simp only [_comp_cost, hd, hne, ne_eq, not_false_eq_true, if_true, to_int]
    norm_num at h2 ⊢
    omega

/-- C5 (the code departs from the claim): for two records whose times differ
by `2^31 + 1` the sign of `_comp_cost` is the reverse of the descending order
in both directions, and for times that differ by `2^32` it reports a tie. -/
theorem comp_cost_wrong_order :
    _comp_cost { key := "a", time := 2147483649, cnt := 1 } { key := "b", time := 0, cnt := 1 }
      = 2147483647 ∧
    _comp_cost { key := "b", time := 0, cnt := 1 } { key := "a", time := 2147483649, cnt := 1 }
      = -2147483647 ∧
    _comp_cost { key := "a", time := 4294967296, cnt := 1 } { key := "b", time := 0, cnt := 1 }
      = 0 := by
  decide

/-- C8 (the code departs from the claim): for two records with the same time
and call counts 2 and 1, `_comp_cost` returns `1` one way round and `0` the
other way round, so the signs are not opposite. -/
theorem comp_cost_tie_not_antisymmetric :
    _comp_cost { key := "a", time := 5, cnt := 2 } { key := "b", time := 5, cnt := 1 } = 1 ∧
    _comp_cost { key := "b", time := 5, cnt := 1 } { key := "a", time := 5, cnt := 2 } = 0 := by
  decide

/-! ## The call counter of the profiler -/

theorem to_int_of_range (x : Int) (h0 : -2147483648 ≤ x) (h1 : x < 2147483648) :
    to_int x = x := by
  unfold to_int
  norm_num
  omega

theorem note_entry_set_note (R : Registry) (L : Nat) (c : String) (v : Option NoteInfo) :
    note_entry (set_note R L c v) L c = v := by
  simp [note_entry, set_note]

theorem co_map_set_note (R : Registry) (L : Nat) (c : String) (v : Option NoteInfo) :
    (set_note R L c v).co_map = R.co_map := rfl

theorem result_map_set_note (R : Registry) (L : Nat) (c : String) (v : Option NoteInfo) :
    (set_note R L c v).result_map = R.result_map := rfl

theorem note_map_coupdate (R : Registry) (L s : Nat) :
    (coupdate R L s).2.note_map = R.note_map := by
  unfold coupdate
  split <;> rfl

theorem result_map_coupdate (R : Registry) (L s : Nat) :
    (coupdate R L s).2.result_map = R.result_map := by
  unfold coupdate
  split <;> rfl

theorem note_entry_coupdate (R : Registry) (L s : Nat) (c : String) :
    note_entry (coupdate R L s).2 L c = note_entry R L c := by
  unfold note_entry
  rw [note_map_coupdate]

/-- After `coupdate` the coroutine entry holds the returned time as
`TOTAL_TIME` and the stamp as `TIMESTAMP`. -/
theorem co_map_coupdate (R : Registry) (L s : Nat) :
    ∃ dbg, (coupdate R L s).2.co_map L
      = some (CoInfo.mk (coupdate R L s).1 s dbg) := by
  unfold coupdate
  split
  · exact ⟨-1, by simp⟩
  · rename_i e _
    exact ⟨e.debug_time, by simp⟩

theorem coupdate_fst_some (R : Registry) (L s : Nat) (e : CoInfo) (h : R.co_map L = some e) :
    (coupdate R L s).1 = u64_add e.total_time (u64_sub s e.timestamp) := by
  unfold coupdate
  rw [h]

/-- What `on_enter_func` does when no call of the name is open. -/
theorem on_enter_fresh (R : Registry) (L : Nat) (c : String) (s : Nat)
    (h : note_entry R L c = none) :
    note_entry (on_enter_func R L c s) L c
        = some { timestamp := (coupdate R L s).1, stack_count := 1 } ∧
    (on_enter_func R L c s).co_map = (coupdate R L s).2.co_map ∧
    (on_enter_func R L c s).result_map = R.result_map := by
  have h1 := note_entry_coupdate R L s c
  rw [h] at h1
  unfold on_enter_func
  simp only
  unfold note_entry at h1
  split
  · exact ⟨note_entry_set_note _ _ _ _, rfl, result_map_coupdate _ _ _⟩
  · rename_i t ht
    rw [ht] at h1
    simp only at h1
    rw [h1]
    exact ⟨note_entry_set_note _ _ _ _, rfl, result_map_coupdate _ _ _⟩

/-- What `on_enter_func` does when a call of the name is open and was entered
less than `NOTE_STAY_MS_LIMIT` ago. -/
theorem on_enter_nested (R : Registry) (L : Nat) (c : String) (s : Nat) (e : NoteInfo)
    (h : note_entry R L c = some e)
    (hlim : u64_sub (coupdate R L s).1 e.timestamp < NOTE_STAY_MS_LIMIT) :
    note_entry (on_enter_func R L c s) L c
        = some { timestamp := e.timestamp, stack_count := to_int e.stack_count + 1 } ∧
    (on_enter_func R L c s).co_map = (coupdate R L s).2.co_map ∧
    (on_enter_func R L c s).result_map = R.result_map := by
  have h1 := note_entry_coupdate R L s c
  rw [h] at h1
  unfold on_enter_func
  simp only
  unfold note_entry at h1
  split
  · rename_i hn
    rw [hn] at h1
    exact absurd h1 (by simp)
  · rename_i t ht
    rw [ht] at h1
    simp only at h1
    rw [h1]
    simp only
    rw [if_neg (Nat.not_le.2 hlim)]
    exact ⟨note_entry_set_note _ _ _ _, rfl, result_map_coupdate _ _ _⟩

/-- What `on_leave_func` does when a call of the name is open. -/
theorem on_leave_open (R : Registry) (L : Nat) (c : String) (s : Nat) (e : NoteInfo)
    (h : note_entry R L c = some e) :
    (to_int e.stack_count - 1 ≤ 0 →
      note_entry (on_leave_func R L c s) L c = none ∧
      total_count (on_leave_func R L c s) c = to_int (total_count R c) + 1) ∧
    (¬ to_int e.stack_count - 1 ≤ 0 →
      note_entry (on_leave_func R L c s) L c
        = some { timestamp := e.timestamp, stack_count := to_int e.stack_count - 1 } ∧
      (on_leave_func R L c s).co_map = (coupdate R L s).2.co_map ∧
      total_count (on_leave_func R L c s) c = total_count R c) := by
  have h1 := note_entry_coupdate R L s c
  rw [h] at h1
  have hr := result_map_coupdate R L s
  unfold on_leave_func
  simp only
  unfold note_entry at h1
  split
  · rename_i hn
    rw [hn] at h1
    exact absurd h1 (by simp)
  · rename_i t ht
    rw [ht] at h1
    simp only at h1
    rw [h1]
    simp only
    constructor
    · intro hle
      rw [if_pos hle]
      constructor
      · exact note_entry_set_note _ _ _ _
      · unfold total_count
        rw [result_map_set_note]
        have hz : to_int 0 + 1 = 1 := by decide
        split_ifs <;> simp only [result_map_set_note, hr, if_true] <;>
          cases hq : R.result_map c <;> simp [hz]
    · intro hle
      rw [if_neg hle]
      refine ⟨note_entry_set_note _ _ _ _, rfl, ?_⟩
      unfold total_count
      rw [result_map_set_note, hr]

/-- What `on_leave_func` does when no call of the name is open: only the
coroutine entry changes. -/
theorem on_leave_closed (R : Registry) (L : Nat) (c : String) (s : Nat)
    (h : note_entry R L c = none) :
    note_entry (on_leave_func R L c s) L c = none ∧
    total_count (on_leave_func R L c s) c = total_count R c := by
  have h1 := note_entry_coupdate R L s c
  rw [h] at h1
  have hr := result_map_coupdate R L s
  unfold on_leave_func
  simp only
  have h2 := h1
  unfold note_entry at h1
  split
  · exact ⟨h2, by unfold total_count; rw [hr]⟩
  · rename_i t ht
    rw [ht] at h1
    simp only at h1
    rw [h1]
    exact ⟨h2, by unfold total_count; rw [hr]⟩

theorem u64_sub_self (a : Nat) : u64_sub a a = 0 := by
  have hU : U64 = 18446744073709551616 := by decide
  unfold u64_sub
  rw [hU]
  omega

theorem total_count_congr (R R1 : Registry) (c : String) (h : R1.result_map = R.result_map) :
    total_count R1 c = total_count R c := by
  unfold total_count
  rw [h]

theorem run_cons (L : Nat) (c : String) (R : Registry) (ev : Event) (es : List Event) :
    run L c R (ev :: es) = run L c (step L c R ev) es := rfl

theorem u64_sub_add_cancel (A t0 x : Nat) :
    u64_sub (u64_add A x) t0 = (u64_sub A t0 + x) % 18446744073709551616 := by
  have hU : U64 = 18446744073709551616 := by decide
  unfold u64_sub u64_add
  rw [hU]
  omega

/-- The time since the outermost call, after one more `coupdate`. -/
theorem elapsed_next (A t0 prev s0 s lo : Nat)
    (hA : u64_sub A t0 = prev - s0)
    (h1 : lo ≤ s0) (h2 : s0 ≤ prev) (h3 : prev ≤ s) (h4 : s < lo + 180000)
    (h5 : lo + 180000 ≤ 18446744073709551616) :
    u64_sub (u64_add A (u64_sub s prev)) t0 = s - s0 := by
  have hU : U64 = 18446744073709551616 := by decide
  have hx : u64_sub s prev = s - prev := by
    unfold u64_sub
    rw [hU]
    omega
  rw [u64_sub_add_cancel, hA, hx]
  omega

/-- The recorded count after a sequence of events grows by the number of
outermost calls the sequence closes. -/
theorem run_completions (L : Nat) (c : String) (evs : List Event) :
    ∀ (R : Registry) (d prev lo : Nat), NoteInv R L c d prev lo →
      stamps_ok prev (lo + NOTE_STAY_MS_LIMIT) evs → lo ≤ prev →
      lo + NOTE_STAY_MS_LIMIT ≤ 18446744073709551616 →
      0 ≤ total_count R c → total_count R c + d + evs.length < 2147483648 →
      total_count (run L c R evs) c = total_count R c + completions d evs := by
  have hN : NOTE_STAY_MS_LIMIT = 180000 := rfl
  induction evs with
  | nil => intro R d prev lo _ _ _ _ _ _; simp [run, completions]
  | cons ev es ih =>
      intro R d prev lo hI hst hlo hhi h0 hlen
      rw [run_cons]
      obtain ⟨hs1, hs2, hs3⟩ := hst
      simp only [List.length_cons, Nat.cast_add, Nat.cast_one] at hlen
      have hlo1 : lo ≤ ev.sts := le_trans hlo hs1
      cases ev with
      | enter s =>
          simp only [Event.sts] at hs1 hs2 hs3 hlo1
          cases d with
          | zero =>
              obtain ⟨e1, e2, e3⟩ := on_enter_fresh R L c s hI
              obtain ⟨dbg, hco⟩ := co_map_coupdate R L s
              have hc := total_count_congr R _ c e3
              have hI1 : NoteInv (on_enter_func R L c s) L c 1 s lo := by
                refine ⟨(coupdate R L s).1, CoInfo.mk (coupdate R L s).1 s dbg, s,
                  ?_, ?_, rfl, by omega, le_refl _, ?_⟩
                · rw [e1]; simp
                · rw [e2]; exact hco
                · simp only [u64_sub_self]; omega
              have := ih (on_enter_func R L c s) 1 s lo hI1 hs3 (by omega) hhi
                (by rw [hc]; exact h0) (by rw [hc]; push_cast at hlen ⊢; omega)
              simp only [step, completions]
              rw [this, hc]
          | succ d1 =>
              obtain ⟨t0, e, s0, hn, hco, hts, hl1, hl2, hA⟩ := hI
              have hts2 := coupdate_fst_some R L s e hco
              rw [hts] at hts2
              have hel := elapsed_next e.total_time t0 prev s0 s lo hA hl1 hl2 hs1
                (by rw [← hN]; exact hs2) (by rw [← hN]; exact hhi)
              rw [← hts2] at hel
              obtain ⟨e1, e2, e3⟩ := on_enter_nested R L c s _ hn (by
                simp only [hel, hN]
                rw [hN] at hs2
                omega)
              obtain ⟨dbg, hco2⟩ := co_map_coupdate R L s
              have hc := total_count_congr R _ c e3
              have hti : to_int ((d1 : Int) + 1) = (d1 : Int) + 1 :=
                to_int_of_range _ (by omega) (by push_cast at hlen; omega)
              have hI1 : NoteInv (on_enter_func R L c s) L c (d1 + 2) s lo := by
                refine ⟨t0, CoInfo.mk (coupdate R L s).1 s dbg, s0,
                  ?_, ?_, rfl, hl1, by omega, ?_⟩
                · rw [e1]; simp only [hti]; push_cast; rfl
                · rw [e2]; exact hco2
                · exact hel
              have := ih (on_enter_func R L c s) (d1 + 2) s lo hI1 hs3 (by omega) hhi
                (by rw [hc]; exact h0) (by rw [hc]; push_cast at hlen ⊢; omega)
              simp only [step, completions]
              rw [this, hc]
      | leave s =>
          simp only [Event.sts] at hs1 hs2 hs3 hlo1
          cases d with
          | zero =>
              obtain ⟨e1, e2⟩ := on_leave_closed R L c s hI
              have := ih (on_leave_func R L c s) 0 s lo e1 hs3 (by omega) hhi
                (by rw [e2]; exact h0) (by rw [e2]; push_cast at hlen ⊢; omega)
              simp only [step, completions]
              rw [this, e2]
          | succ d1 =>
              obtain ⟨t0, e, s0, hn, hco, hts, hl1, hl2, hA⟩ := hI
              have hti : to_int ((d1 : Int) + 1) = (d1 : Int) + 1 :=
                to_int_of_range _ (by omega) (by push_cast at hlen; omega)
              cases d1 with
              | zero =>
                  have htc : to_int (total_count R c) = total_count R c :=
                    to_int_of_range _ (by omega) (by push_cast at hlen; omega)
                  have hlen1 : total_count R c + 1 + ((0 : Nat) : Int) + (es.length : Int)
                      < 2147483648 := by push_cast at hlen ⊢; omega
                  have h01 : 0 ≤ total_count R c + 1 := by omega
                  obtain ⟨hclose, _⟩ := on_leave_open R L c s _ hn
                  simp only [hti] at hclose
                  obtain ⟨e1, e2⟩ := hclose (by simp)
                  rw [htc] at e2
                  have := ih (on_leave_func R L c s) 0 s lo e1 hs3 hlo1 hhi
                    (by rw [e2]; exact h01) (by rw [e2]; exact hlen1)
                  simp only [step, completions]
                  rw [this, e2]
                  push_cast
                  ring
              | succ d2 =>
                  have hpos : ¬ ((((d2 + 1 : Nat) : Int) + 1 - 1) ≤ 0) := by
                    have hd2 : (0 : Int) ≤ (d2 : Int) := Int.ofNat_nonneg d2
                    push_cast
                    intro hcon
                    linarith
                  have hlen1 : total_count R c + ((d2 + 1 : Nat) : Int) + (es.length : Int)
                      < 2147483648 := by push_cast at hlen ⊢; omega
                  have hts2 := coupdate_fst_some R L s e hco
                  rw [hts] at hts2
                  have hel := elapsed_next e.total_time t0 prev s0 s lo hA hl1 hl2 hs1
                    (by rw [← hN]; exact hs2) (by rw [← hN]; exact hhi)
                  rw [← hts2] at hel
                  have hs0 : s0 ≤ s := le_trans hl2 hs1
                  obtain ⟨_, hopen⟩ := on_leave_open R L c s _ hn
                  simp only [hti] at hopen
                  obtain ⟨e1, e2, e3⟩ := hopen hpos
                  obtain ⟨dbg, hco2⟩ := co_map_coupdate R L s
                  have hI1 : NoteInv (on_leave_func R L c s) L c (d2 + 1) s lo := by
                    refine ⟨t0, CoInfo.mk (coupdate R L s).1 s dbg, s0, ?_, ?_, rfl, hl1, hs0, ?_⟩
                    · rw [e1]; push_cast; simp
                    · rw [e2]; exact hco2
                    · exact hel
                  have := ih (on_leave_func R L c s) (d2 + 1) s lo hI1 hs3 hlo1 hhi
                    (by rw [e3]; exact h0) (by rw [e3]; exact hlen1)
                  simp only [step, completions]
                  rw [this, e3]

/-- In a balanced sequence every open or newly entered outermost call is
closed. -/
theorem completions_of_balanced (evs : List Event) :
    ∀ d, balanced d evs → completions d evs = outermost d evs + (if d = 0 then 0 else 1) := by
  induction evs with
  | nil =>
      intro d hb
      simp only [balanced] at hb
      subst hb
      simp [completions, outermost]
  | cons ev es ih =>
      intro d hb
      cases ev with
      | enter s =>
          cases d with
          | zero =>
              simp only [balanced] at hb
              simp [completions, outermost, ih 1 hb]
          | succ d1 =>
              simp only [balanced] at hb
              simp [completions, outermost, ih (d1 + 2) hb]
      | leave s =>
          cases d with
          | zero => simp [balanced] at hb
          | succ d1 =>
              simp only [balanced] at hb
              cases d1 with
              | zero => simp [completions, outermost, ih 0 hb]
              | succ d2 => simp [completions, outermost, ih (d2 + 1) hb]

/-- C6 (amended to outermost calls): take a balanced sequence of
`on_enter_func` / `on_leave_func` events for one call name on one coroutine,
started while no call of that name is open, with time stamps that do not
decrease and stay within `NOTE_STAY_MS_LIMIT` of the first, and few enough
events for the `int` counters. Once the last call has returned, `TOTAL_COUNT`
of the call name has grown by the number of outermost calls, that is the
`on_enter_func` events met while no call of the name was open; nested calls
are not counted. -/
theorem total_count_outermost_calls (R : Registry) (L : Nat) (callname : String)
    (evs : List Event) (lo : Nat)
    (hnote : note_entry R L callname = none)
    (hbal : balanced 0 evs)
    (hst : stamps_ok lo (lo + NOTE_STAY_MS_LIMIT) evs)
    (hlo : lo + NOTE_STAY_MS_LIMIT ≤ U64)
    (h0 : 0 ≤ total_count R callname)
    (hlen : total_count R callname + evs.length < 2 ^ 31) :
    total_count (run L callname R evs) callname
      = total_count R callname + outermost 0 evs := by
  have hU : U64 = 18446744073709551616 := by decide
  rw [hU] at hlo
  have h := run_completions L callname evs R 0 lo lo hnote hst (le_refl _) hlo h0
    (by norm_num at hlen ⊢; exact hlen)
  rw [h, completions_of_balanced evs 0 hbal]
  simp

/-- Witness of C6's theorem: two calls one after the other on a fresh
registry are counted twice. -/
theorem total_count_outermost_witness :
    balanced 0 [Event.enter 0, Event.leave 1, Event.enter 2, Event.leave 3] ∧
    total_count (run 0 "f" luaopen_measure
        [Event.enter 0, Event.leave 1, Event.enter 2, Event.leave 3]) "f"
      = total_count luaopen_measure "f"
          + outermost 0 [Event.enter 0, Event.leave 1, Event.enter 2, Event.leave 3] ∧
    outermost 0 [Event.enter 0, Event.leave 1, Event.enter 2, Event.leave 3] = 2 :=
  ⟨by simp [balanced],
    total_count_outermost_calls luaopen_measure 0 "f"
      [Event.enter 0, Event.leave 1, Event.enter 2, Event.leave 3] 0 rfl
      (by simp [balanced]) (by simp [stamps_ok, Event.sts, NOTE_STAY_MS_LIMIT])
      (by decide) (by decide) (by decide),
    by decide⟩

/-- Counterexample to C6 as stated: a call that calls itself once (two
`on_enter_func` events, each matched by a later `on_leave_func`, time stamps
0 to 3 ms) on a fresh registry leaves `TOTAL_COUNT = 1`, not 2. -/
theorem nested_call_counted_once :
    balanced 0 [Event.enter 0, Event.enter 1, Event.leave 2, Event.leave 3] ∧
    enters [Event.enter 0, Event.enter 1, Event.leave 2, Event.leave 3] = 2 ∧
    total_count (run 0 "f" luaopen_measure
        [Event.enter 0, Event.enter 1, Event.leave 2, Event.leave 3]) "f" = 1 :=
  ⟨by simp [balanced], by decide, by decide⟩

end Measure
